import Mathlib

/-!
Verification of `blender_quick_export.py`, a single-file Blender plugin.

The plugin's `execute` reads `bpy.data.filepath`, and either warns and
cancels (unsaved file) or computes an export path from the blend file's
basename and invokes the host glTF exporter once with fixed options.
`register`/`unregister` add and remove one operator class and one draw
callback in the host UI registry.

Strings are embedded as `List Char` at the core (Python strings are
sequences of code points), with `String` wrappers at the interface.
The `os.path` functions used by the plugin (`basename`, `splitext`,
`normpath`, POSIX flavour) are embedded following CPython's `posixpath`.
-/

namespace BQE

/-- CPython `str.rfind` for a single character: index of the last
occurrence of `c` in `l`, or `-1` when absent. -/
def rfindChar : List Char → Char → Int
  | [], _ => -1
  | a :: as, c =>
    let r := rfindChar as c
    if 0 ≤ r then r + 1
    else if a = c then 0 else -1

/-- `posixpath.basename`: `p[p.rfind('/')+1:]`. -/
def basenameL (p : List Char) : List Char :=
  p.drop (rfindChar p '/' + 1).toNat

/-- `posixpath.splitext` (via `genericpath._splitext` with `sep='/'`,
`extsep='.'`): split off the final extension of the last component,
unless the component's leading characters up to that dot are all dots. -/
def splitextL (p : List Char) : List Char × List Char :=
  -- sepIndex := p.rfind('/'); dotIndex := p.rfind('.').
  -- CPython scans p[sepIndex+1 : dotIndex]; it splits at dotIndex as
  -- soon as it sees a non-dot, and returns (p, '') if all are dots.
  if rfindChar p '/' < rfindChar p '.' then
    if (((p.drop (rfindChar p '/' + 1).toNat).take
          (rfindChar p '.' - rfindChar p '/' - 1).toNat).all
        (fun a => a = '.')) then
      (p, [])
    else
      (p.take (rfindChar p '.').toNat, p.drop (rfindChar p '.').toNat)
  else
    (p, [])

/-- `str.split(sep)` for a single-character separator (never-empty result
list, empty components kept, as in Python). -/
def splitOnChar (c : Char) : List Char → List (List Char)
  | [] => [[]]
  | a :: as =>
    if a = c then
      [] :: splitOnChar c as
    else
      match splitOnChar c as with
      | [] => [[a]]
      | x :: xs => (a :: x) :: xs

/-- `normpath`'s `initial_slashes`: `path.startswith('/')` as 0 or 1,
promoted to 2 when the path starts with exactly two slashes (which POSIX
allows to be preserved). -/
def leadingSlashes (p : List Char) : Nat :=
  if p.take 1 = ['/'] then
    if p.take 2 = ['/', '/'] ∧ ¬ p.take 3 = ['/', '/', '/'] then 2 else 1
  else 0

/-- One iteration of `normpath`'s component loop: skip empty and `.`
components, append anything that is not `..`, append `..` when it cannot
be resolved (relative path with empty result, or result already ending
in `..`), otherwise pop the previous component. -/
def normStep (initialSlashes : Nat) (acc : List (List Char))
    (comp : List Char) : List (List Char) :=
  if comp = ([] : List Char) ∨ comp = ['.'] then acc
  else if comp ≠ ['.', '.'] ∨ (initialSlashes = 0 ∧ acc = []) ∨
      acc.getLast? = some ['.', '.'] then
    acc ++ [comp]
  else if acc ≠ [] then acc.dropLast
  else acc

/-- `normpath`'s component loop over all components. -/
def normComps (initialSlashes : Nat) (comps : List (List Char)) :
    List (List Char) :=
  comps.foldl (normStep initialSlashes) []

/-- `posixpath.normpath`: collapse `//`, drop `.` components, resolve
`..` components where possible, preserving one or exactly two leading
slashes; the result is `'.'` when everything cancels. -/
def normpathL (p : List Char) : List Char :=
  if p = [] then ['.']
  else if List.replicate (leadingSlashes p) '/' ++
      List.intercalate ['/'] (normComps (leadingSlashes p) (splitOnChar '/' p)) =
      [] then
    ['.']
  else
    List.replicate (leadingSlashes p) '/' ++
      List.intercalate ['/'] (normComps (leadingSlashes p) (splitOnChar '/' p))

/-- String wrapper for `posixpath.basename`. -/
def basename (p : String) : String := ⟨basenameL p.data⟩

/-- String wrapper for `posixpath.splitext`. -/
def splitext (p : String) : String × String :=
  ((⟨(splitextL p.data).1⟩ : String), (⟨(splitextL p.data).2⟩ : String))

/-- String wrapper for `posixpath.normpath`. -/
def normpath (p : String) : String := ⟨normpathL p.data⟩

/-- The host UI registry state touched by the plugin: the list of
registered operator classes (`bpy.utils.register_class`), and the list
of draw callbacks appended to the `SCENE_PT_scene` panel. Classes and
callbacks are identified by name. -/
structure UIState where
  classes : List String
  drawCallbacks : List String
deriving DecidableEq

/-- The host state `execute` can read: the current document's file path
(`bpy.data.filepath`) and the UI registry. -/
structure Host where
  filepath : String
  ui : UIState
deriving DecidableEq

/-- Operator return status. -/
inductive OpResult where
  | CANCELLED
  | FINISHED
deriving DecidableEq

/-- One call to the host exporter `bpy.ops.export_scene.gltf`, with the
keyword arguments the plugin passes. -/
structure ExportCall where
  filepath : String
  export_format : String
  export_apply : Bool
deriving DecidableEq

/-- One `self.report` message: severity level and text. -/
structure ReportMsg where
  level : String
  text : String
deriving DecidableEq

/-- The observable outcome of one `execute` call: return status, the
exporter calls made (in order), and the report messages (in order). -/
structure ExecOutcome where
  result : OpResult
  exports : List ExportCall
  reports : List ReportMsg
deriving DecidableEq

/-- `QuickExportGLTFOperator.execute`, embedded line by line. Returns
the (unmodified) host state together with the outcome. `if not
blend_path` is Python string falsity: the empty string. `os.path.join`
with a single argument returns that argument unchanged. -/
def execute (h : Host) : Host × ExecOutcome :=
  let blend_path := h.filepath
  if blend_path = "" then
    (h, { result := .CANCELLED, exports := [],
          reports := [{ level := "WARNING",
                        text := "Please save the .blend file first." }] })
  else
    let blend_name := basename blend_path
    let name_no_ext := (splitext blend_name).1
    let export_path := "/home/casey/dream/static/" ++ name_no_ext ++ ".glb"
    let export_path := normpath export_path
    (h, { result := .FINISHED,
          exports := [{ filepath := export_path, export_format := "GLB",
                        export_apply := true }],
          reports := [{ level := "INFO",
                        text := "Exported to " ++ export_path }] })

/-- The operator's `bl_idname`. -/
def opId : String := "export_scene.quick_gltf"

/-- The name identifying the `draw_export_button` callback. -/
def cbId : String := "draw_export_button"

/-- A button placed in a UI layout: the operator it invokes and its icon. -/
structure Button where
  operator_id : String
  icon : String
deriving DecidableEq

/-- `draw_export_button`: adds to the layout exactly one button invoking
`export_scene.quick_gltf` with the `EXPORT` icon. -/
def draw_export_button (layout : List Button) : List Button :=
  layout ++ [{ operator_id := opId, icon := "EXPORT" }]

/-- `bpy.utils.register_class(QuickExportGLTFOperator)`. -/
def registerClass (s : UIState) : UIState :=
  { s with classes := s.classes ++ [opId] }

/-- `bpy.utils.unregister_class(QuickExportGLTFOperator)`: removes the
(first occurrence of the) registered class. -/
def unregisterClass (s : UIState) : UIState :=
  { s with classes := s.classes.erase opId }

/-- `bpy.types.SCENE_PT_scene.append(draw_export_button)`. -/
def appendDraw (s : UIState) : UIState :=
  { s with drawCallbacks := s.drawCallbacks ++ [cbId] }

/-- `bpy.types.SCENE_PT_scene.remove(draw_export_button)`. -/
def removeDraw (s : UIState) : UIState :=
  { s with drawCallbacks := s.drawCallbacks.erase cbId }

/-- `register()`: first registers the operator class, then appends the
draw callback. -/
def register (s : UIState) : UIState := appendDraw (registerClass s)

/-- `unregister()`: first removes the draw callback, then unregisters
the operator class. -/
def unregister (s : UIState) : UIState := unregisterClass (removeDraw s)

/-! ### Lemmas about the embedded `posixpath` functions -/

theorem rfindChar_ge_neg_one (l : List Char) (c : Char) : -1 ≤ rfindChar l c := by
  induction l with
  | nil => simp [rfindChar]
  | cons a as ih =>
    simp only [rfindChar]
    split
    · omega
    · split <;> omega

theorem rfindChar_lt_length (l : List Char) (c : Char) :
    rfindChar l c < l.length := by
  induction l with
  | nil => simp [rfindChar]
  | cons a as ih =>
    simp only [rfindChar, List.length_cons]
    split
    · push_cast; omega
    · split <;> [omega; (push_cast; omega)]

theorem rfindChar_eq_neg_one_iff (l : List Char) (c : Char) :
    rfindChar l c = -1 ↔ c ∉ l := by
  induction l with
  | nil => simp [rfindChar]
  | cons a as ih =>
    simp only [rfindChar, List.mem_cons]
    have hge := rfindChar_ge_neg_one as c
    constructor
    · intro h
      split at h
      · omega
      · split at h
        · omega
        · rename_i ha
          push_neg
          constructor
          · intro hac; exact ha hac.symm
          · exact ih.mp (by omega)
    · intro h
      push_neg at h
      have has : rfindChar as c = -1 := ih.mpr h.2
      rw [has]
      simp only [show ¬(0 ≤ (-1 : Int)) by omega, if_false]
      rw [if_neg (fun hac => h.1 hac.symm)]

theorem rfindChar_of_not_mem {l : List Char} {c : Char} (h : c ∉ l) :
    rfindChar l c = -1 := (rfindChar_eq_neg_one_iff l c).mpr h

/-- `rfind` over an append: the last occurrence is in `ys` when `ys`
has one, otherwise it is the last occurrence in `xs`. -/
theorem rfindChar_append (xs ys : List Char) (c : Char) :
    rfindChar (xs ++ ys) c =
      if 0 ≤ rfindChar ys c then (xs.length : Int) + rfindChar ys c
      else rfindChar xs c := by
  induction xs with
  | nil =>
    have hge := rfindChar_ge_neg_one ys c
    simp only [List.nil_append, List.length_nil, Nat.cast_zero, zero_add]
    split
    · rfl
    · show rfindChar ys c = -1
      omega
  | cons a as ih =>
    have hcons : rfindChar ((a :: as) ++ ys) c =
        (if 0 ≤ rfindChar (as ++ ys) c then rfindChar (as ++ ys) c + 1
         else if a = c then 0 else -1) := rfl
    have hconsas : rfindChar (a :: as) c =
        (if 0 ≤ rfindChar as c then rfindChar as c + 1
         else if a = c then 0 else -1) := rfl
    rw [hcons, hconsas, ih]
    have hge := rfindChar_ge_neg_one ys c
    have hgeas := rfindChar_ge_neg_one as c
    by_cases hy : 0 ≤ rfindChar ys c
    · have h1 : 0 ≤ (as.length : Int) + rfindChar ys c := by omega
      simp only [if_pos hy, if_pos h1, List.length_cons]
      push_cast
      ring
    · simp only [if_neg hy]

/-- The basename contains no path separator. -/
theorem basenameL_no_slash (p : List Char) : '/' ∉ basenameL p := by
  induction p with
  | nil => simp [basenameL, rfindChar]
  | cons a as ih =>
    by_cases hr : 0 ≤ rfindChar as '/'
    · have : basenameL (a :: as) = basenameL as := by
        simp only [basenameL, rfindChar, if_pos hr]
        have : (rfindChar as '/' + 1 + 1).toNat = (rfindChar as '/' + 1).toNat + 1 := by
          omega
        rw [this, List.drop_succ_cons]
      rw [this]; exact ih
    · have hneg : rfindChar as '/' = -1 := by
        have := rfindChar_ge_neg_one as '/'
        omega
      have hnm : '/' ∉ as := (rfindChar_eq_neg_one_iff as '/').mp hneg
      by_cases ha : a = '/'
      · have : basenameL (a :: as) = as := by
          simp [basenameL, rfindChar, hneg, ha]
        rw [this]; exact hnm
      · have : basenameL (a :: as) = a :: as := by
          simp [basenameL, rfindChar, hneg, ha, if_neg hr]
        rw [this]
        simp only [List.mem_cons, not_or]
        exact ⟨fun h => ha h.symm, hnm⟩

/-- Splitting a list free of the separator yields the singleton list. -/
theorem splitOnChar_of_not_mem {l : List Char} {c : Char} (h : c ∉ l) :
    splitOnChar c l = [l] := by
  induction l with
  | nil => rfl
  | cons a as ih =>
    simp only [List.mem_cons, not_or] at h
    have h2 := ih h.2
    have hne : ¬ a = c := fun hac => h.1 hac.symm
    simp only [splitOnChar, if_neg hne, h2]

/-- Splitting the fixed export directory followed by a separator-free
component. -/
theorem splitOnChar_static {comp : List Char} (h : '/' ∉ comp) :
    splitOnChar '/' ("/home/casey/dream/static/".data ++ comp) =
      [[], "home".data, "casey".data, "dream".data, "static".data, comp] := by
  have h1 := splitOnChar_of_not_mem h
  have hdata : "/home/casey/dream/static/".data =
      '/' :: 'h' :: 'o' :: 'm' :: 'e' :: '/' :: 'c' :: 'a' :: 's' :: 'e' :: 'y' ::
      '/' :: 'd' :: 'r' :: 'e' :: 'a' :: 'm' :: '/' :: 's' :: 't' :: 'a' :: 't' ::
      'i' :: 'c' :: '/' :: [] := rfl
  rw [hdata]
  simp [splitOnChar, h1]

/-- The component loop appends an unexceptional component. -/
theorem normStep_not_special {acc : List (List Char)} {comp : List Char}
    (hne : comp ≠ []) (hd1 : comp ≠ ['.']) (hd2 : comp ≠ ['.', '.'])
    (i : Nat) : normStep i acc comp = acc ++ [comp] := by
  unfold normStep
  rw [if_neg (by simp [hne, hd1]), if_pos (Or.inl hd2)]

/-- `normpath` is the identity on the fixed export directory followed by
a separator-free component that is not empty, `.` or `..`. -/
theorem normpathL_static {comp : List Char} (h : '/' ∉ comp)
    (hne : comp ≠ []) (hd1 : comp ≠ ['.']) (hd2 : comp ≠ ['.', '.']) :
    normpathL ("/home/casey/dream/static/".data ++ comp) =
      "/home/casey/dream/static/".data ++ comp := by
  have hsplit := splitOnChar_static h
  have hlead : leadingSlashes ("/home/casey/dream/static/".data ++ comp) = 1 := rfl
  have hpne : "/home/casey/dream/static/".data ++ comp ≠ [] := by simp
  have hcomps :
      normComps 1 (splitOnChar '/' ("/home/casey/dream/static/".data ++ comp)) =
        ["home".data, "casey".data, "dream".data, "static".data, comp] := by
    rw [hsplit]
    simp only [normComps, List.foldl_cons, List.foldl_nil]
    have hstep : normStep 1 (normStep 1 (normStep 1 (normStep 1 (normStep 1 [] [])
        "home".data) "casey".data) "dream".data) "static".data =
        ["home".data, "casey".data, "dream".data, "static".data] := by
      simp [normStep]
    rw [hstep, normStep_not_special hne hd1 hd2]
    rfl
  have hres : List.replicate
      (leadingSlashes ("/home/casey/dream/static/".data ++ comp)) '/' ++
      List.intercalate ['/']
        (normComps (leadingSlashes ("/home/casey/dream/static/".data ++ comp))
          (splitOnChar '/' ("/home/casey/dream/static/".data ++ comp))) =
      "/home/casey/dream/static/".data ++ comp := by
    rw [hlead, hcomps]
    simp [List.intercalate, List.intersperse]
  unfold normpathL
  rw [if_neg hpne, hres, if_neg hpne]

/-- Characters absent from the input are absent from the root part
returned by `splitext`. -/
theorem splitextL_fst_not_mem {b : List Char} {c : Char} (h : c ∉ b) :
    c ∉ (splitextL b).1 := by
  unfold splitextL
  split
  · split
    · exact h
    · exact fun hm => h (List.take_subset _ _ hm)
  · exact h

/-- `splitext` on a name `x.blend` whose stem `x` is nonempty and free
of dots and slashes splits off exactly `.blend`. -/
theorem splitextL_append_blend {x : List Char} (hx : x ≠ []) (hdot : '.' ∉ x)
    (hslash : '/' ∉ x) :
    splitextL (x ++ ".blend".data) = (x, ".blend".data) := by
  have hsl : rfindChar ".blend".data '/' = -1 := rfl
  have hdl : rfindChar ".blend".data '.' = 0 := rfl
  have hsep : rfindChar (x ++ ".blend".data) '/' = -1 := by
    rw [rfindChar_append, hsl, if_neg (by omega), rfindChar_of_not_mem hslash]
  have hdotIdx : rfindChar (x ++ ".blend".data) '.' = (x.length : Int) := by
    rw [rfindChar_append, hdl, if_pos (by omega)]
    omega
  have hall : ¬ (x.all (fun a => a = '.') = true) := by
    intro hcontra
    rw [List.all_eq_true] at hcontra
    obtain ⟨a, ha⟩ := List.exists_mem_of_ne_nil x hx
    have := hcontra a ha
    simp only [decide_eq_true_eq] at this
    exact hdot (this ▸ ha)
  unfold splitextL
  rw [hsep, hdotIdx, if_pos (by omega)]
  have h0 : ((-1 : Int) + 1).toNat = 0 := rfl
  have hl : ((x.length : Int) - (-1) - 1).toNat = x.length := by omega
  rw [h0, hl, List.drop_zero, List.take_left, if_neg hall]
  have hln : ((x.length : Int)).toNat = x.length := by omega
  rw [hln, List.take_left, List.drop_left]

/-- `normpath` is the identity on the export paths `execute` builds:
fixed directory, slash, separator-free stem, `.glb`. -/
theorem normpath_export_path (s : String) (hs : '/' ∉ s.data) :
    normpath ("/home/casey/dream/static/" ++ s ++ ".glb") =
      "/home/casey/dream/static/" ++ s ++ ".glb" := by
  apply String.ext
  show normpathL (("/home/casey/dream/static/" ++ s ++ ".glb").data) =
    ("/home/casey/dream/static/" ++ s ++ ".glb").data
  have hdata : ("/home/casey/dream/static/" ++ s ++ ".glb").data =
      "/home/casey/dream/static/".data ++ (s.data ++ ".glb".data) := by
    show "/home/casey/dream/static/".data ++ s.data ++ ".glb".data =
      "/home/casey/dream/static/".data ++ (s.data ++ ".glb".data)
    rw [List.append_assoc]
  rw [hdata]
  have hglb : ".glb".data = ['.', 'g', 'l', 'b'] := rfl
  have hlen : (s.data ++ ".glb".data).length = s.data.length + 4 := by
    rw [hglb]; simp
  apply normpathL_static
  · rw [hglb]
    simp only [List.mem_append, List.mem_cons, List.not_mem_nil, or_false, not_or]
    refine ⟨hs, by decide, by decide, by decide, by decide⟩
  · intro hc
    rw [hc] at hlen; simp at hlen
  · intro hc
    rw [hc] at hlen; simp at hlen
  · intro hc
    rw [hc] at hlen; simp at hlen

/-! ### The claims -/

/-- The empty UI registry, used for concrete witnesses. -/
def ui0 : UIState := { classes := [], drawCallbacks := [] }

/-- C2: when `bpy.data.filepath` is empty (the file has never been
saved), `execute` reports the "file not saved" warning, returns
`CANCELLED`, and makes no export call. -/
theorem spec_C2 (h : Host) (hp : h.filepath = "") :
    (execute h).2.result = OpResult.CANCELLED ∧
    (execute h).2.exports = [] ∧
    (execute h).2.reports =
      [{ level := "WARNING", text := "Please save the .blend file first." }] := by
  simp [execute, hp]

theorem spec_C2_witness :
    (execute { filepath := "", ui := ui0 }).2.result = OpResult.CANCELLED ∧
    (execute { filepath := "", ui := ui0 }).2.exports = [] ∧
    (execute { filepath := "", ui := ui0 }).2.reports =
      [{ level := "WARNING", text := "Please save the .blend file first." }] :=
  spec_C2 { filepath := "", ui := ui0 } rfl

/-- C8: only the final extension of the basename is stripped before
appending `.glb`: `a.b.blend` exports as `a.b.glb`, extensionless `foo`
exports as `foo.glb`, and the leading-dot-only name `.blend` is not
substituted and exports as `.blend.glb`. -/
theorem spec_C8 :
    (execute { filepath := "a.b.blend", ui := ui0 }).2.exports =
      [{ filepath := "/home/casey/dream/static/a.b.glb",
         export_format := "GLB", export_apply := true }] ∧
    (execute { filepath := "foo", ui := ui0 }).2.exports =
      [{ filepath := "/home/casey/dream/static/foo.glb",
         export_format := "GLB", export_apply := true }] ∧
    (execute { filepath := ".blend", ui := ui0 }).2.exports =
      [{ filepath := "/home/casey/dream/static/.blend.glb",
         export_format := "GLB", export_apply := true }] := by
  decide

/-- C4: for every non-empty source file path, the computed output path
equals the fixed directory `/home/casey/dream/static` joined with the
source file's basename with its extension replaced by `.glb`. -/
theorem spec_C4 (h : Host) (hp : h.filepath ≠ "") :
    (execute h).2.exports =
      [{ filepath := "/home/casey/dream/static/" ++
           (splitext (basename h.filepath)).1 ++ ".glb",
         export_format := "GLB", export_apply := true }] := by
  have hs : '/' ∉ ((splitext (basename h.filepath)).1).data :=
    splitextL_fst_not_mem (basenameL_no_slash h.filepath.data)
  simp only [execute, if_neg hp]
  rw [normpath_export_path _ hs]

theorem spec_C4_witness :
    "/x/a.blend" ≠ "" ∧
    (execute { filepath := "/x/a.blend", ui := ui0 }).2.exports =
      [{ filepath := "/home/casey/dream/static/" ++
           (splitext (basename "/x/a.blend")).1 ++ ".glb",
         export_format := "GLB", export_apply := true }] :=
  ⟨by decide, spec_C4 { filepath := "/x/a.blend", ui := ui0 } (by decide)⟩

/-- C3: for a non-empty file path, `execute` invokes the host export
call exactly once, with the computed export path and the fixed options
`export_format="GLB"` and `export_apply=True`, then reports success and
returns `FINISHED`. -/
theorem spec_C3 (h : Host) (hp : h.filepath ≠ "") :
    (execute h).2.result = OpResult.FINISHED ∧
    (execute h).2.exports =
      [{ filepath := normpath ("/home/casey/dream/static/" ++
           (splitext (basename h.filepath)).1 ++ ".glb"),
         export_format := "GLB", export_apply := true }] ∧
    (execute h).2.reports =
      [{ level := "INFO",
         text := "Exported to " ++ normpath ("/home/casey/dream/static/" ++
           (splitext (basename h.filepath)).1 ++ ".glb") }] := by
  simp [execute, hp]

theorem spec_C3_witness :
    "cube.blend" ≠ "" ∧
    ((execute { filepath := "cube.blend", ui := ui0 }).2.result =
       OpResult.FINISHED ∧
     (execute { filepath := "cube.blend", ui := ui0 }).2.exports =
       [{ filepath := normpath ("/home/casey/dream/static/" ++
            (splitext (basename "cube.blend")).1 ++ ".glb"),
          export_format := "GLB", export_apply := true }] ∧
     (execute { filepath := "cube.blend", ui := ui0 }).2.reports =
       [{ level := "INFO",
          text := "Exported to " ++ normpath ("/home/casey/dream/static/" ++
            (splitext (basename "cube.blend")).1 ++ ".glb") }]) :=
  ⟨by decide, spec_C3 { filepath := "cube.blend", ui := ui0 } (by decide)⟩

/-- C1: for a saved blend file whose basename is `X.blend`, with `X`
nonempty and containing no path separator and no further dot, the export
path computed by `execute` equals the fixed directory
`/home/casey/dream/static` joined with `X.glb`. -/
theorem spec_C1 (X : String) (h : Host) (hX : X ≠ "")
    (hXs : '/' ∉ X.data) (hXd : '.' ∉ X.data)
    (hbase : basename h.filepath = X ++ ".blend") :
    (execute h).2.exports.map ExportCall.filepath =
      ["/home/casey/dream/static/" ++ X ++ ".glb"] := by
  have hXdata : X.data ≠ [] := fun hc => hX (String.ext hc)
  have hp : h.filepath ≠ "" := by
    intro hp0
    have hd := congrArg String.data hbase
    rw [hp0] at hd
    have hnil : ([] : List Char) = X.data ++ ".blend".data := hd
    exact hXdata (List.append_eq_nil.mp hnil.symm).1
  have hstem : (splitext (basename h.filepath)).1 = X := by
    apply String.ext
    show (splitextL (basename h.filepath).data).1 = X.data
    have hd : (basename h.filepath).data = X.data ++ ".blend".data :=
      congrArg String.data hbase
    rw [hd, splitextL_append_blend hXdata hXd hXs]
  have h4 := spec_C4 h hp
  rw [h4, hstem, List.map_cons, List.map_nil]

theorem spec_C1_witness :
    "cube" ≠ "" ∧ '/' ∉ "cube".data ∧ '.' ∉ "cube".data ∧
    basename "/work/cube.blend" = "cube" ++ ".blend" ∧
    (execute { filepath := "/work/cube.blend", ui := ui0 }).2.exports.map
        ExportCall.filepath =
      ["/home/casey/dream/static/" ++ "cube" ++ ".glb"] :=
  ⟨by decide, by decide, by decide, by decide,
   spec_C1 "cube" { filepath := "/work/cube.blend", ui := ui0 }
     (by decide) (by decide) (by decide) (by decide)⟩

/-- C6: the computed export path depends only on the source file's
basename — two non-empty source paths with equal basenames yield
identical export paths. -/
theorem spec_C6 (h1 h2 : Host) (hp1 : h1.filepath ≠ "")
    (hp2 : h2.filepath ≠ "")
    (hb : basename h1.filepath = basename h2.filepath) :
    (execute h1).2.exports.map ExportCall.filepath =
      (execute h2).2.exports.map ExportCall.filepath := by
  simp only [execute, if_neg hp1, if_neg hp2, hb]

theorem spec_C6_witness :
    "/a/cube.blend" ≠ "" ∧ "/b/sub/cube.blend" ≠ "" ∧
    basename "/a/cube.blend" = basename "/b/sub/cube.blend" ∧
    (execute { filepath := "/a/cube.blend", ui := ui0 }).2.exports.map
        ExportCall.filepath =
      (execute { filepath := "/b/sub/cube.blend", ui := ui0 }).2.exports.map
        ExportCall.filepath :=
  ⟨by decide, by decide, by decide,
   spec_C6 { filepath := "/a/cube.blend", ui := ui0 }
     { filepath := "/b/sub/cube.blend", ui := ui0 }
     (by decide) (by decide) (by decide)⟩

/-- C10: `execute` never modifies the host state it reads or the
plugin's registration state — the file path, registered classes and draw
callbacks are returned unchanged; its only effects are the recorded
export calls and report messages. -/
theorem spec_C10 (h : Host) :
    (execute h).1 = h ∧ (execute h).2.exports.length ≤ 1 := by
  by_cases hp : h.filepath = "" <;> simp [execute, hp]

/-- Erasing a freshly appended element recovers the original list. -/
theorem erase_append_singleton {α} [DecidableEq α] {l : List α} {a : α}
    (h : a ∉ l) : (l ++ [a]).erase a = l := by
  rw [List.erase_append_right _ h]
  simp

/-- C5: on a registry where the plugin is not yet registered, `register`
adds the operator class and appends the draw-button callback, and
`unregister` removes exactly those two additions: the round trip is the
identity on the registry state. -/
theorem spec_C5 (s : UIState) (hcb : cbId ∉ s.drawCallbacks)
    (hcl : opId ∉ s.classes) :
    register s = { classes := s.classes ++ [opId],
                   drawCallbacks := s.drawCallbacks ++ [cbId] } ∧
    unregister (register s) = s := by
  constructor
  · rfl
  · show unregisterClass (removeDraw (appendDraw (registerClass s))) = s
    simp only [registerClass, appendDraw, removeDraw, unregisterClass,
      erase_append_singleton hcb, erase_append_singleton hcl]

theorem spec_C5_witness :
    cbId ∉ ui0.drawCallbacks ∧ opId ∉ ui0.classes ∧
    (register ui0 = { classes := ui0.classes ++ [opId],
                      drawCallbacks := ui0.drawCallbacks ++ [cbId] } ∧
     unregister (register ui0) = ui0) :=
  ⟨by decide, by decide, spec_C5 ui0 (by decide) (by decide)⟩

/-- C7: `register` adds exactly one menu button callback to the host UI,
and that callback places exactly one button, invoking the operator with
`bl_idname` `export_scene.quick_gltf` and nothing else. -/
theorem spec_C7 (s : UIState) (layout : List Button) :
    (register s).drawCallbacks = s.drawCallbacks ++ [cbId] ∧
    (register s).classes = s.classes ++ [opId] ∧
    draw_export_button layout =
      layout ++ [{ operator_id := "export_scene.quick_gltf",
                   icon := "EXPORT" }] := by
  exact ⟨rfl, rfl, rfl⟩

/-- The registration invariant of C9: whenever the draw-button callback
is installed, the operator class is registered. -/
def buttonImpliesOp (s : UIState) : Prop :=
  cbId ∈ s.drawCallbacks → opId ∈ s.classes

/-- C9: `unregister` removes the draw callback before unregistering the
operator class — the reverse of `register`'s order — so on a clean
initial registry, every intermediate state of `register` followed by
`unregister` that contains the button also has the operator class
registered. -/
theorem spec_C9 (s : UIState) (hcb : cbId ∉ s.drawCallbacks) :
    (∀ t, unregister t = unregisterClass (removeDraw t)) ∧
    (∀ t, register t = appendDraw (registerClass t)) ∧
    buttonImpliesOp s ∧
    buttonImpliesOp (registerClass s) ∧
    buttonImpliesOp (register s) ∧
    buttonImpliesOp (removeDraw (register s)) ∧
    buttonImpliesOp (unregister (register s)) := by
  have hdc1 : (registerClass s).drawCallbacks = s.drawCallbacks := rfl
  have herase : (s.drawCallbacks ++ [cbId]).erase cbId = s.drawCallbacks :=
    erase_append_singleton hcb
  refine ⟨fun t => rfl, fun t => rfl, ?_, ?_, ?_, ?_, ?_⟩
  · exact fun hmem => absurd hmem hcb
  · exact fun hmem => absurd hmem hcb
  · intro hmem
    show opId ∈ s.classes ++ [opId]
    simp
  · intro hmem
    have : cbId ∈ s.drawCallbacks := by
      have hdc : (removeDraw (register s)).drawCallbacks =
          (s.drawCallbacks ++ [cbId]).erase cbId := rfl
      rw [hdc, herase] at hmem
      exact hmem
    exact absurd this hcb
  · intro hmem
    have : cbId ∈ s.drawCallbacks := by
      have hdc : (unregister (register s)).drawCallbacks =
          (s.drawCallbacks ++ [cbId]).erase cbId := rfl
      rw [hdc, herase] at hmem
      exact hmem
    exact absurd this hcb

theorem spec_C9_witness :
    cbId ∉ ui0.drawCallbacks ∧
    ((∀ t, unregister t = unregisterClass (removeDraw t)) ∧
     (∀ t, register t = appendDraw (registerClass t)) ∧
     buttonImpliesOp ui0 ∧
     buttonImpliesOp (registerClass ui0) ∧
     buttonImpliesOp (register ui0) ∧
     buttonImpliesOp (removeDraw (register ui0)) ∧
     buttonImpliesOp (unregister (register ui0))) :=
  ⟨by decide, spec_C9 ui0 (by decide)⟩

end BQE
